import Mathlib

/-!
Verification development for the wincompatlib configuration-resolution and
environment-derivation core (Proton and Steam runtime descriptor families).

The Rust source is shallowly embedded: `PathBuf`/`OsString` become `String`,
`HashMap<&str, OsString>` built by a fixed sequence of inserts of distinct
literal keys becomes an association list in insertion order (looked up with
`List.lookup`), the filesystem existence probe becomes an explicit
`fs : String → Bool` parameter, and the external process launcher becomes an
explicit `launch` function argument returning `Except`.

Field and function names follow the source where Lean's lexer permits;
`Proton.pfx` embeds the source field `prefix` (a Lean keyword), and the
builder methods `with_*` from the `ProtonWithExt` / `SteamWithExt` traits are
rendered in lowerCamel (`withPrefix` for `with_prefix`, and so on).  The
resolver methods that share a name with the field they consult get a `Bin`
suffix: `Proton.winebootBin` embeds the method `Proton::wineboot()`.
-/

namespace Wincompatlib

/-- Model of Rust `Path::parent` on strings, for normalized paths (no
trailing slash): the path with its final component removed; `none` for the
empty path and for the root `/`; a single relative component has parent `""`
(as in Rust, where `Path::new("wine").parent() = Some("")`). -/
def pathParent (p : String) : Option String :=
  if p = "" ∨ p = "/" then none
  else
    match (p.toList.reverse.dropWhile (fun c => c ≠ '/')) with
    | [] => some ""
    | ['/'] => some "/"
    | _ :: rest => some (String.mk rest.reverse)

/-- Model of Rust `Path::join`: an absolute right operand replaces the left;
otherwise the two are joined with a separator. -/
def pathJoin (p q : String) : String :=
  if q.toList.head? = some '/' then q
  else if p = "" then q
  else if p.toList.getLast? = some '/' then p ++ q
  else p ++ "/" ++ q

/-- Embeds `ProtonArch` (src/proton/mod.rs). -/
inductive ProtonArch where
  | Win32
  | Win64
deriving DecidableEq, Repr

/-- Embeds `ProtonArch::from_str`: the Rust `match` is a first-match chain of
string-literal comparisons over disjoint alias sets. -/
def ProtonArch.from_str (arch : String) : Option ProtonArch :=
  if arch = "win32" ∨ arch = "x32" ∨ arch = "32" then some ProtonArch.Win32
  else if arch = "win64" ∨ arch = "x64" ∨ arch = "64" then some ProtonArch.Win64
  else none

/-- Embeds `ProtonArch::to_str`. -/
def ProtonArch.to_str : ProtonArch → String
  | ProtonArch.Win32 => "win32"
  | ProtonArch.Win64 => "win64"

/-- Embeds `ProtonLoader` (src/proton/mod.rs); the spec calls the `Current`
variant `UseMain`. -/
inductive ProtonLoader where
  | Current
  | Default
  | Custom (path : String)
deriving DecidableEq, Repr

/-- Embeds `ProtonLoader::default()`, which returns `Self::Default`. -/
def ProtonLoader.defaultLoader : ProtonLoader := ProtonLoader.Default

/-- Embeds the `Proton` struct (src/proton/mod.rs).  `pfx` is the source
field `prefix`. -/
structure Proton where
  binary : String
  pfx : Option String
  arch : Option ProtonArch
  wineboot : Option String
  wineserver : Option String
  wineloader : ProtonLoader
deriving DecidableEq, Repr

/-- Embeds `Proton::new`. -/
def Proton.new (binary : String) (pfx : Option String) (arch : Option ProtonArch)
    (wineboot : Option String) (wineserver : Option String)
    (wineloader : ProtonLoader) : Proton :=
  { binary := binary, pfx := pfx, arch := arch, wineboot := wineboot,
    wineserver := wineserver, wineloader := wineloader }

/-- Embeds `Proton::from_binary`. -/
def Proton.from_binary (binary : String) : Proton :=
  Proton.new binary none none none none ProtonLoader.defaultLoader

/-- Embeds `impl Default for Proton`: `Self::from_binary("wine")`. -/
def Proton.default : Proton := Proton.from_binary "wine"

/-- Embeds `Proton::get_inner_binary`; the filesystem existence probe
`binary_path.exists()` is the explicit parameter `fs`. -/
def Proton.get_inner_binary (fs : String → Bool) (p : Proton) (binary : String) : String :=
  match pathParent p.binary with
  | some parent =>
    let binary_path := pathJoin parent binary
    if fs binary_path then binary_path else binary
  | none => binary

/-- Embeds the method `Proton::wineboot()`:
`self.wineboot.clone().unwrap_or_else(|| self.get_inner_binary("wineboot"))`. -/
def Proton.winebootBin (fs : String → Bool) (p : Proton) : String :=
  match p.wineboot with
  | some path => path
  | none => Proton.get_inner_binary fs p "wineboot"

/-- Embeds the method `Proton::wineserver()`. -/
def Proton.wineserverBin (fs : String → Bool) (p : Proton) : String :=
  match p.wineserver with
  | some path => path
  | none => Proton.get_inner_binary fs p "wineserver"

/-- Embeds the method `Proton::wineloader()`. -/
def Proton.wineloaderBin (p : Proton) : String :=
  match p.wineloader with
  | ProtonLoader.Default => "wine"
  | ProtonLoader.Current => p.binary
  | ProtonLoader.Custom path => path

/-- Captured output of the external process launcher (`std::process::Output`
restricted to the piped stdout, as bytes read back as text). -/
structure CmdOutput where
  stdout : String
deriving DecidableEq, Repr

/-- Embeds `Proton::version`: runs `binary --version` via the launcher and
returns the raw captured stdout (`OsString::from_vec(output.stdout)`).  The
launcher itself is out of scope and passed in as `launch`. -/
def Proton.version (p : Proton) (launch : String → List String → Except String CmdOutput) :
    Except String String :=
  match launch p.binary ["--version"] with
  | Except.error e => Except.error e
  | Except.ok output => Except.ok output.stdout

/-- Embeds `Proton::get_envs` as an association list in insertion order; the
source builds a `HashMap` by inserting each of the four distinct literal keys
at most once, guarded by the corresponding field. -/
def Proton.get_envs (p : Proton) : List (String × String) :=
  (match p.pfx with
   | some path => [("WINEPREFIX", path)]
   | none => [])
  ++ (match p.arch with
   | some ProtonArch.Win32 => [("WINEARCH", "win32")]
   | some ProtonArch.Win64 => [("WINEARCH", "win64")]
   | none => [])
  ++ (match p.wineserver with
   | some server => [("WINESERVER", server)]
   | none => [])
  ++ (match p.wineloader with
   | ProtonLoader.Default => []
   | ProtonLoader.Current => [("WINELOADER", p.binary)]
   | ProtonLoader.Custom path => [("WINELOADER", path)])

/-- Embeds `ProtonWithExt::with_prefix` for `Proton`. -/
def Proton.withPrefix (p : Proton) (pfxVal : String) : Proton :=
  { p with pfx := some pfxVal }

/-- Embeds `ProtonWithExt::with_arch` for `Proton`. -/
def Proton.withArch (p : Proton) (arch : ProtonArch) : Proton :=
  { p with arch := some arch }

/-- Embeds `ProtonWithExt::with_boot` for `Proton`. -/
def Proton.withBoot (p : Proton) (boot : String) : Proton :=
  { p with wineboot := some boot }

/-- Embeds `ProtonWithExt::with_server` for `Proton`. -/
def Proton.withServer (p : Proton) (server : String) : Proton :=
  { p with wineserver := some server }

/-- Embeds `ProtonWithExt::with_loader` for `Proton`. -/
def Proton.withLoader (p : Proton) (loader : ProtonLoader) : Proton :=
  { p with wineloader := loader }

/-- Embeds the `Steam` struct (src/steam/mod.rs). -/
structure Steam where
  binary : String
  pfx : Option String
  wineboot : Option String
deriving DecidableEq, Repr

/-- Embeds `Steam::new`. -/
def Steam.new (binary : String) (pfx : Option String) (wineboot : Option String) : Steam :=
  { binary := binary, pfx := pfx, wineboot := wineboot }

/-- Embeds `Steam::from_binary`. -/
def Steam.from_binary (binary : String) : Steam :=
  Steam.new binary none none

/-- Embeds `impl Default for Steam`: `Self::from_binary("proton")`. -/
def Steam.default : Steam := Steam.from_binary "proton"

/-- Embeds `Steam::version`: runs the subprocess, then discards its captured
output and returns the constant `OsString::from("lol")`. -/
def Steam.version (s : Steam) (launch : String → List String → Except String CmdOutput) :
    Except String String :=
  match launch s.binary ["--version"] with
  | Except.error e => Except.error e
  | Except.ok _ => Except.ok "lol"

/-- Embeds `Steam::get_inner_binary` (duplicated in the source). -/
def Steam.get_inner_binary (fs : String → Bool) (s : Steam) (binary : String) : String :=
  match pathParent s.binary with
  | some parent =>
    let binary_path := pathJoin parent binary
    if fs binary_path then binary_path else binary
  | none => binary

/-- Embeds the method `Steam::wineboot()`. -/
def Steam.winebootBin (fs : String → Bool) (s : Steam) : String :=
  match s.wineboot with
  | some path => path
  | none => Steam.get_inner_binary fs s "wineboot"

/-- Embeds `Steam::get_envs`. -/
def Steam.get_envs (s : Steam) : List (String × String) :=
  match s.pfx with
  | some path => [("WINEPREFIX", path)]
  | none => []

/-- Embeds `SteamWithExt::with_prefix` for `Steam`. -/
def Steam.withPrefix (s : Steam) (pfxVal : String) : Steam :=
  { s with pfx := some pfxVal }

/-- Every descriptor produced by the public constructors `new`, `from_binary`
and `default`, closed under the five builder operations: the reachable
`Proton` values of the claims about constructor invariants. -/
inductive Proton.Reachable : Proton → Prop where
  | ctor_new : ∀ b pf ar wb ws wl, Proton.Reachable (Proton.new b pf ar wb ws wl)
  | ctor_from_binary : ∀ b, Proton.Reachable (Proton.from_binary b)
  | ctor_default : Proton.Reachable Proton.default
  | step_withPrefix : ∀ p a, Proton.Reachable p → Proton.Reachable (Proton.withPrefix p a)
  | step_withArch : ∀ p a, Proton.Reachable p → Proton.Reachable (Proton.withArch p a)
  | step_withBoot : ∀ p a, Proton.Reachable p → Proton.Reachable (Proton.withBoot p a)
  | step_withServer : ∀ p a, Proton.Reachable p → Proton.Reachable (Proton.withServer p a)
  | step_withLoader : ∀ p l, Proton.Reachable p → Proton.Reachable (Proton.withLoader p l)

/-- Reachability restricted to constructor calls whose binary argument is
non-empty (the `default` constructor passes the non-empty literal "wine"). -/
inductive Proton.ReachableNE : Proton → Prop where
  | ctor_new : ∀ b pf ar wb ws wl, b ≠ "" → Proton.ReachableNE (Proton.new b pf ar wb ws wl)
  | ctor_from_binary : ∀ b, b ≠ "" → Proton.ReachableNE (Proton.from_binary b)
  | ctor_default : Proton.ReachableNE Proton.default
  | step_withPrefix : ∀ p a, Proton.ReachableNE p → Proton.ReachableNE (Proton.withPrefix p a)
  | step_withArch : ∀ p a, Proton.ReachableNE p → Proton.ReachableNE (Proton.withArch p a)
  | step_withBoot : ∀ p a, Proton.ReachableNE p → Proton.ReachableNE (Proton.withBoot p a)
  | step_withServer : ∀ p a, Proton.ReachableNE p → Proton.ReachableNE (Proton.withServer p a)
  | step_withLoader : ∀ p l, Proton.ReachableNE p → Proton.ReachableNE (Proton.withLoader p l)

/-- Steam-family analogue of `Proton.ReachableNE` (the `default` constructor
passes the non-empty literal "proton"). -/
inductive Steam.ReachableNE : Steam → Prop where
  | ctor_new : ∀ b pf wb, b ≠ "" → Steam.ReachableNE (Steam.new b pf wb)
  | ctor_from_binary : ∀ b, b ≠ "" → Steam.ReachableNE (Steam.from_binary b)
  | ctor_default : Steam.ReachableNE Steam.default
  | step_withPrefix : ∀ s a, Steam.ReachableNE s → Steam.ReachableNE (Steam.withPrefix s a)

end Wincompatlib

namespace Wincompatlib

/-- C3: loader resolution is total (it is a plain function) and returns the
bare path "wine" when the loader policy is `Default`, the descriptor's binary
verbatim when the policy is `Current` (the spec's `UseMain`), and the stored
custom path verbatim when the policy is `Custom p`; no filesystem check is
involved (the definition takes no filesystem argument). -/
theorem wineloader_resolution_spec : ∀ p : Proton,
    (p.wineloader = ProtonLoader.Default → Proton.wineloaderBin p = "wine") ∧
    (p.wineloader = ProtonLoader.Current → Proton.wineloaderBin p = p.binary) ∧
    (∀ q, p.wineloader = ProtonLoader.Custom q → Proton.wineloaderBin p = q) := by
  intro p
  refine ⟨?_, ?_, ?_⟩
  · intro h; simp [Proton.wineloaderBin, h]
  · intro h; simp [Proton.wineloaderBin, h]
  · intro q h; simp [Proton.wineloaderBin, h]

/-- C3 witness: the loader resolves to "wine" for a default-policy
descriptor and to the main binary under the `Current` policy. -/
theorem wineloader_resolution_spec_witness :
    Proton.wineloaderBin (Proton.from_binary "/x/wine") = "wine" ∧
    Proton.wineloaderBin (Proton.withLoader (Proton.from_binary "/x/wine") ProtonLoader.Current)
      = "/x/wine" :=
  ⟨(wineloader_resolution_spec (Proton.from_binary "/x/wine")).1 rfl,
   (wineloader_resolution_spec
      (Proton.withLoader (Proton.from_binary "/x/wine") ProtonLoader.Current)).2.1 rfl⟩

/-- C6: builder chaining commutes field-for-field across every pair of
distinct fields, and setting the same field twice is last-write-wins, for
all five `Proton` builders and the `Steam` one. -/
theorem builder_commute_lww :
    ∀ (d : Proton) (s : Steam) (a b : String) (r t : ProtonArch) (l m : ProtonLoader),
    Proton.withArch (Proton.withPrefix d a) r = Proton.withPrefix (Proton.withArch d r) a ∧
    Proton.withBoot (Proton.withPrefix d a) b = Proton.withPrefix (Proton.withBoot d b) a ∧
    Proton.withServer (Proton.withPrefix d a) b = Proton.withPrefix (Proton.withServer d b) a ∧
    Proton.withLoader (Proton.withPrefix d a) l = Proton.withPrefix (Proton.withLoader d l) a ∧
    Proton.withBoot (Proton.withArch d r) a = Proton.withArch (Proton.withBoot d a) r ∧
    Proton.withServer (Proton.withArch d r) a = Proton.withArch (Proton.withServer d a) r ∧
    Proton.withLoader (Proton.withArch d r) l = Proton.withArch (Proton.withLoader d l) r ∧
    Proton.withServer (Proton.withBoot d a) b = Proton.withBoot (Proton.withServer d b) a ∧
    Proton.withLoader (Proton.withBoot d a) l = Proton.withBoot (Proton.withLoader d l) a ∧
    Proton.withLoader (Proton.withServer d a) l = Proton.withServer (Proton.withLoader d l) a ∧
    Proton.withPrefix (Proton.withPrefix d a) b = Proton.withPrefix d b ∧
    Proton.withArch (Proton.withArch d r) t = Proton.withArch d t ∧
    Proton.withBoot (Proton.withBoot d a) b = Proton.withBoot d b ∧
    Proton.withServer (Proton.withServer d a) b = Proton.withServer d b ∧
    Proton.withLoader (Proton.withLoader d l) m = Proton.withLoader d m ∧
    Steam.withPrefix (Steam.withPrefix s a) b = Steam.withPrefix s b := by
  intro d s a b r t l m
  repeat' apply And.intro
  all_goals rfl

/-- C7: each builder operation replaces exactly its one targeted field and
carries every other field, the binary included, over unchanged; totality is
immediate since each is a plain function of unconstrained arguments. -/
theorem builder_frame_spec :
    ∀ (d : Proton) (s : Steam) (a : String) (r : ProtonArch) (l : ProtonLoader),
    (Proton.withPrefix d a).binary = d.binary ∧ (Proton.withPrefix d a).pfx = some a ∧
    (Proton.withPrefix d a).arch = d.arch ∧ (Proton.withPrefix d a).wineboot = d.wineboot ∧
    (Proton.withPrefix d a).wineserver = d.wineserver ∧
    (Proton.withPrefix d a).wineloader = d.wineloader ∧
    (Proton.withArch d r).binary = d.binary ∧ (Proton.withArch d r).pfx = d.pfx ∧
    (Proton.withArch d r).arch = some r ∧ (Proton.withArch d r).wineboot = d.wineboot ∧
    (Proton.withArch d r).wineserver = d.wineserver ∧
    (Proton.withArch d r).wineloader = d.wineloader ∧
    (Proton.withBoot d a).binary = d.binary ∧ (Proton.withBoot d a).pfx = d.pfx ∧
    (Proton.withBoot d a).arch = d.arch ∧ (Proton.withBoot d a).wineboot = some a ∧
    (Proton.withBoot d a).wineserver = d.wineserver ∧
    (Proton.withBoot d a).wineloader = d.wineloader ∧
    (Proton.withServer d a).binary = d.binary ∧ (Proton.withServer d a).pfx = d.pfx ∧
    (Proton.withServer d a).arch = d.arch ∧ (Proton.withServer d a).wineboot = d.wineboot ∧
    (Proton.withServer d a).wineserver = some a ∧
    (Proton.withServer d a).wineloader = d.wineloader ∧
    (Proton.withLoader d l).binary = d.binary ∧ (Proton.withLoader d l).pfx = d.pfx ∧
    (Proton.withLoader d l).arch = d.arch ∧ (Proton.withLoader d l).wineboot = d.wineboot ∧
    (Proton.withLoader d l).wineserver = d.wineserver ∧
    (Proton.withLoader d l).wineloader = l ∧
    (Steam.withPrefix s a).binary = s.binary ∧ (Steam.withPrefix s a).pfx = some a ∧
    (Steam.withPrefix s a).wineboot = s.wineboot := by
  intro d s a r l
  repeat' apply And.intro
  all_goals rfl

/-- C9: the Steam-family environment map contains WINEPREFIX exactly when
the prefix field is set (with that path as value), never contains WINEARCH,
WINESERVER or WINELOADER, and every key it holds is WINEPREFIX. -/
theorem steam_get_envs_spec : ∀ s : Steam,
    List.lookup "WINEPREFIX" (Steam.get_envs s) = s.pfx ∧
    List.lookup "WINEARCH" (Steam.get_envs s) = none ∧
    List.lookup "WINESERVER" (Steam.get_envs s) = none ∧
    List.lookup "WINELOADER" (Steam.get_envs s) = none ∧
    (Steam.get_envs s).all (fun kv => kv.1 == "WINEPREFIX") = true := by
  intro s
  cases h : s.pfx <;> simp [Steam.get_envs, h, List.lookup]

/-- C10: the boot-tool field never influences the synthesized environment:
two Proton descriptors agreeing on every field except possibly `wineboot`
yield equal environment maps. -/
theorem get_envs_ignores_wineboot : ∀ d e : Proton,
    d.binary = e.binary → d.pfx = e.pfx → d.arch = e.arch →
    d.wineserver = e.wineserver → d.wineloader = e.wineloader →
    Proton.get_envs d = Proton.get_envs e := by
  intro d e h1 h2 h3 h4 h5
  unfold Proton.get_envs
  rw [h1, h2, h3, h4, h5]

/-- C10 witness: setting the boot tool on the default descriptor leaves the
environment map unchanged. -/
theorem get_envs_ignores_wineboot_witness :
    Proton.get_envs (Proton.withBoot Proton.default "/b") = Proton.get_envs Proton.default :=
  get_envs_ignores_wineboot (Proton.withBoot Proton.default "/b") Proton.default
    rfl rfl rfl rfl rfl

/-- C5 evidence: with a launcher that succeeds with stdout "proton-8.0",
`Proton::version` returns exactly those bytes, but `Steam::version` discards
them and returns the constant "lol" — contradicting the claim (and the
source's own doc comment) for the Steam family. -/
theorem version_raw_output_evidence :
    Proton.version (Proton.from_binary "/x/wine")
      (fun _ _ => Except.ok (CmdOutput.mk "proton-8.0")) = Except.ok "proton-8.0" ∧
    Steam.version (Steam.from_binary "/x/proton")
      (fun _ _ => Except.ok (CmdOutput.mk "proton-8.0")) = Except.ok "lol" ∧
    ("lol" : String) ≠ "proton-8.0" := by
  refine ⟨rfl, rfl, ?_⟩
  decide

/-- C1: the Proton environment map holds WINEPREFIX exactly when the prefix
field is set (value: the prefix path), WINEARCH exactly when the arch field
is set (value: the canonical architecture string), WINESERVER exactly when
the wineserver field is set, WINELOADER exactly when the loader policy is
not `Default` (value: the resolved loader path), and no other key; the two
concrete descriptors of the claim evaluate to the stated maps. -/
theorem proton_get_envs_spec :
    (∀ p : Proton,
      List.lookup "WINEPREFIX" (Proton.get_envs p) = p.pfx ∧
      List.lookup "WINEARCH" (Proton.get_envs p) = Option.map ProtonArch.to_str p.arch ∧
      List.lookup "WINESERVER" (Proton.get_envs p) = p.wineserver ∧
      List.lookup "WINELOADER" (Proton.get_envs p) =
        (if p.wineloader = ProtonLoader.Default then none
         else some (Proton.wineloaderBin p)) ∧
      (Proton.get_envs p).all (fun kv =>
        kv.1 == "WINEPREFIX" || kv.1 == "WINEARCH" ||
        kv.1 == "WINESERVER" || kv.1 == "WINELOADER") = true) ∧
    Proton.get_envs
        (Proton.new "/x/wine" (some "/p") (some ProtonArch.Win64) none none ProtonLoader.Current)
      = [("WINEPREFIX", "/p"), ("WINEARCH", "win64"), ("WINELOADER", "/x/wine")] ∧
    Proton.get_envs Proton.default = [] := by
  refine ⟨?_, rfl, rfl⟩
  intro p
  obtain ⟨b, pf, ar, wb, ws, wl⟩ := p
  rcases ar with _ | a
  all_goals try cases a
  all_goals cases pf <;> cases ws <;> cases wl <;>
    simp [Proton.get_envs, Proton.wineloaderBin, ProtonArch.to_str, List.lookup]

/-- C2: sibling-tool resolution for wineboot and wineserver returns the
explicitly set tool path unchanged whenever that field is set, for every
filesystem state; with the field unset it returns parent-joined tool path
when the binary has a parent and the joined path exists, and the bare tool
name otherwise. -/
theorem sibling_resolution_spec : ∀ (fs : String → Bool) (p : Proton),
    (∀ b, p.wineboot = some b → Proton.winebootBin fs p = b) ∧
    (∀ b, p.wineserver = some b → Proton.wineserverBin fs p = b) ∧
    (p.wineboot = none →
      (∀ par, pathParent p.binary = some par → fs (pathJoin par "wineboot") = true →
        Proton.winebootBin fs p = pathJoin par "wineboot") ∧
      (∀ par, pathParent p.binary = some par → fs (pathJoin par "wineboot") = false →
        Proton.winebootBin fs p = "wineboot") ∧
      (pathParent p.binary = none → Proton.winebootBin fs p = "wineboot")) ∧
    (p.wineserver = none →
      (∀ par, pathParent p.binary = some par → fs (pathJoin par "wineserver") = true →
        Proton.wineserverBin fs p = pathJoin par "wineserver") ∧
      (∀ par, pathParent p.binary = some par → fs (pathJoin par "wineserver") = false →
        Proton.wineserverBin fs p = "wineserver") ∧
      (pathParent p.binary = none → Proton.wineserverBin fs p = "wineserver")) := by
  intro fs p
  refine ⟨?_, ?_, ?_, ?_⟩
  · intro b hb; simp [Proton.winebootBin, hb]
  · intro b hb; simp [Proton.wineserverBin, hb]
  · intro hn
    refine ⟨?_, ?_, ?_⟩
    · intro par hp hf; simp [Proton.winebootBin, hn, Proton.get_inner_binary, hp, hf]
    · intro par hp hf; simp [Proton.winebootBin, hn, Proton.get_inner_binary, hp, hf]
    · intro hp; simp [Proton.winebootBin, hn, Proton.get_inner_binary, hp]
  · intro hn
    refine ⟨?_, ?_, ?_⟩
    · intro par hp hf; simp [Proton.wineserverBin, hn, Proton.get_inner_binary, hp, hf]
    · intro par hp hf; simp [Proton.wineserverBin, hn, Proton.get_inner_binary, hp, hf]
    · intro hp; simp [Proton.wineserverBin, hn, Proton.get_inner_binary, hp]

/-- C2 witness: with binary "/x/wine" and a filesystem on which exactly
"/x/wineboot" exists, wineboot resolution returns "/x/wineboot". -/
theorem sibling_resolution_spec_witness :
    Proton.winebootBin (fun s => s == "/x/wineboot") (Proton.from_binary "/x/wine")
      = "/x/wineboot" := by
  rw [((sibling_resolution_spec (fun s => s == "/x/wineboot")
        (Proton.from_binary "/x/wine")).2.2.1 rfl).1 "/x" (by decide) (by decide)]
  decide

/-- C4: architecture parsing is a case-sensitive exact match recognizing
exactly the three aliases of each architecture, returning `none` on every
other string, and parse-then-serialize maps every recognized alias to its
fixed canonical form. -/
theorem protonArch_parse_spec : ∀ s : String,
    (ProtonArch.from_str s = some ProtonArch.Win32 ↔
      (s = "win32" ∨ s = "x32" ∨ s = "32")) ∧
    (ProtonArch.from_str s = some ProtonArch.Win64 ↔
      (s = "win64" ∨ s = "x64" ∨ s = "64")) ∧
    (ProtonArch.from_str s = none ↔
      ¬(s = "win32" ∨ s = "x32" ∨ s = "32" ∨ s = "win64" ∨ s = "x64" ∨ s = "64")) ∧
    ((s = "win32" ∨ s = "x32" ∨ s = "32") →
      Option.map ProtonArch.to_str (ProtonArch.from_str s) = some "win32") ∧
    ((s = "win64" ∨ s = "x64" ∨ s = "64") →
      Option.map ProtonArch.to_str (ProtonArch.from_str s) = some "win64") := by
  intro s
  by_cases h32 : s = "win32" ∨ s = "x32" ∨ s = "32"
  · rcases h32 with h | h | h <;> subst h <;> decide
  · by_cases h64 : s = "win64" ∨ s = "x64" ∨ s = "64"
    · rcases h64 with h | h | h <;> subst h <;> decide
    · have e : ProtonArch.from_str s = none := by
        unfold ProtonArch.from_str
        rw [if_neg h32, if_neg h64]
      refine ⟨?_, ?_, ?_, ?_, ?_⟩
      · simp [e]
        try tauto
      · simp [e]
        try tauto
      · simp [e]
        try tauto
      · simp [e]
        try tauto
      · simp [e]
        try tauto

/-- C4 witness: parsing the alias "x64" and serializing yields the
canonical form "win64". -/
theorem protonArch_parse_spec_witness :
    Option.map ProtonArch.to_str (ProtonArch.from_str "x64") = some "win64" :=
  (protonArch_parse_spec "x64").2.2.2.2 (Or.inr (Or.inl rfl))

/-- C8 counterexample: `from_binary` accepts the empty string, so the
descriptor `Proton.from_binary ""` is reachable through the public
constructors yet has an empty binary field — refuting the claim that every
reachable descriptor has a non-empty binary. -/
theorem binary_nonempty_counterexample :
    Proton.Reachable (Proton.from_binary "") ∧ (Proton.from_binary "").binary = "" ∧
    ¬(∀ p, Proton.Reachable p → p.binary ≠ "") := by
  refine ⟨Proton.Reachable.ctor_from_binary "", rfl, ?_⟩
  intro h
  exact h (Proton.from_binary "") (Proton.Reachable.ctor_from_binary "") rfl

/-- C8 amended: every descriptor built by `default`, or by `new` or
`from_binary` with a non-empty binary argument, keeps a non-empty binary
under any sequence of builder operations, in both descriptor families. -/
theorem binary_nonempty_amended :
    (∀ p, Proton.ReachableNE p → p.binary ≠ "") ∧
    (∀ s, Steam.ReachableNE s → s.binary ≠ "") := by
  constructor
  · intro p h
    induction h with
    | ctor_new b pf ar wb ws wl hb => exact hb
    | ctor_from_binary b hb => exact hb
    | ctor_default => decide
    | step_withPrefix p a hp ih => exact ih
    | step_withArch p a hp ih => exact ih
    | step_withBoot p a hp ih => exact ih
    | step_withServer p a hp ih => exact ih
    | step_withLoader p l hp ih => exact ih
  · intro s h
    induction h with
    | ctor_new b pf wb hb => exact hb
    | ctor_from_binary b hb => exact hb
    | ctor_default => decide
    | step_withPrefix s a hs ih => exact ih

/-- C8 amended witness: concrete reachable descriptors in both families
have non-empty binaries. -/
theorem binary_nonempty_amended_witness :
    (Proton.withPrefix Proton.default "/p").binary ≠ "" ∧
    (Steam.withPrefix Steam.default "/p").binary ≠ "" :=
  ⟨binary_nonempty_amended.1 (Proton.withPrefix Proton.default "/p")
     (Proton.ReachableNE.step_withPrefix Proton.default "/p" Proton.ReachableNE.ctor_default),
   binary_nonempty_amended.2 (Steam.withPrefix Steam.default "/p")
     (Steam.ReachableNE.step_withPrefix Steam.default "/p" Steam.ReachableNE.ctor_default)⟩

end Wincompatlib
